import Mathlib

/-!
Verification of the NotesOS asynchronous ingestion and retrieval pipeline.

Python strings are modelled as `List Char`; Python ints as `Int`/`Nat`;
Python floats (OCR confidences, retrieval scores) as `ℚ`, which is exact
arithmetic — all numeric claims carry tolerances (±0.01, ±0.001) that are
many orders of magnitude wider than float64 rounding error, so the rational
model decides them robustly.
-/

namespace NotesOS

/-! ## Python string primitives -/

/-- Characters stripped by Python `str.strip()` with no argument
(ASCII whitespace; the inputs in play are ASCII). -/
def pyIsSpace (c : Char) : Bool :=
  c = ' ' || c = '\t' || c = '\n' || c = '\r' || c = Char.ofNat 11 || c = Char.ofNat 12

/-- Python `s.strip()`: remove whitespace from both ends. -/
def pyStrip (s : List Char) : List Char :=
  ((s.dropWhile pyIsSpace).reverse.dropWhile pyIsSpace).reverse

/-- Python `s[-n:]` for `n > 0`: the last `n` characters (whole string when
shorter than `n`). -/
def takeLast (n : Nat) (s : List Char) : List Char :=
  s.drop (s.length - n)

/-! ## Chunking service (`src/backend/app/services/chunking.py`) -/

/-- One chunk draft as produced by `ChunkingService.chunk_text` (the dict
with keys chunk_text / chunk_index / char_start / char_end).  Character
offsets are Python ints, which the overlap bookkeeping can in principle
drive negative, hence `Int`. -/
structure Chunk where
  chunk_text : List Char
  chunk_index : Nat
  char_start : Int
  char_end : Int
deriving DecidableEq, Repr

/-- The chunking parameters held by a `ChunkingService` instance. -/
structure ChunkingService where
  chunk_size : Nat
  chunk_overlap : Nat
  min_chunk_size : Nat
deriving DecidableEq, Repr

/-- The module-level singleton `chunking_service = ChunkingService(800, 100, 100)`. -/
def chunking_service : ChunkingService :=
  { chunk_size := 800, chunk_overlap := 100, min_chunk_size := 100 }

/-- Scanner for `re.split(r"\n\n+|\.\n", text)`: at each position the
pattern alternatives are tried in order — a maximal run of two or more
newlines, else a literal period followed by a newline — and a match ends
the current part.  `acc` is the current part accumulated in reverse.  The
`fuel` argument only makes the recursion structural (every step consumes at
least one character, so `length + 1` fuel never runs out). -/
def reSplitGo : Nat → List Char → List Char → List (List Char)
  | 0, s, acc => [acc.reverse ++ s]
  | fuel + 1, s, acc =>
      match s with
      | [] => [acc.reverse]
      | '\n' :: '\n' :: rest =>
          acc.reverse :: reSplitGo fuel (rest.dropWhile (fun c => c = '\n')) []
      | '.' :: '\n' :: rest => acc.reverse :: reSplitGo fuel rest []
      | c :: rest => reSplitGo fuel rest (c :: acc)

/-- `re.split(r"\n\n+|\.\n", text)` as used by `_split_into_paragraphs`. -/
def reSplitParas (text : List Char) : List (List Char) :=
  reSplitGo (text.length + 1) text []

/-- The position-accumulating loop of `_split_into_paragraphs`: keep
stripped non-empty parts with the running offset, which (as in the source)
advances only for kept parts and never counts separators. -/
def splitParasGo : List (List Char) → Nat → List (List Char × Nat)
  | [], _ => []
  | part :: rest, pos =>
      if pyStrip part ≠ [] then
        (pyStrip part, pos) :: splitParasGo rest (pos + part.length)
      else
        splitParasGo rest pos

/-- `ChunkingService._split_into_paragraphs`. -/
def splitIntoParagraphs (text : List Char) : List (List Char × Nat) :=
  splitParasGo (reSplitParas text) 0

/-- The loop state of `chunk_text`: finished chunks, the running buffer,
its recorded start offset, and the next chunk ordinal. -/
structure ChunkState where
  chunks : List Chunk
  current_chunk : List Char
  current_start : Int
  chunk_index : Nat
deriving Repr

/-- One iteration of the paragraph loop in `chunk_text`: greedily extend
the buffer while it stays within `chunk_size`; otherwise flush it as a
chunk and seed the next buffer with the trailing `chunk_overlap`
characters followed by the triggering paragraph. -/
def chunkStep (svc : ChunkingService) (st : ChunkState) (para : List Char × Nat) :
    ChunkState :=
  let sep : List Char := ['\n', '\n']
  let potential := st.current_chunk ++ (if st.current_chunk = [] then [] else sep) ++ para.1
  if potential.length ≤ svc.chunk_size then
    { st with current_chunk := potential }
  else
    let flushed : ChunkState :=
      if st.current_chunk = [] then st
      else
        { st with
          chunks := st.chunks ++
            [{ chunk_text := pyStrip st.current_chunk,
               chunk_index := st.chunk_index,
               char_start := st.current_start,
               char_end := st.current_start + (st.current_chunk.length : Int) }],
          chunk_index := st.chunk_index + 1 }
    if st.current_chunk ≠ [] ∧ 0 < svc.chunk_overlap then
      let overlap_text := takeLast svc.chunk_overlap st.current_chunk
      let new_chunk := overlap_text ++ sep ++ para.1
      { flushed with
        current_chunk := new_chunk,
        current_start := st.current_start + (new_chunk.length : Int)
          - (svc.chunk_overlap : Int) - (para.1.length : Int) }
    else
      { flushed with current_chunk := para.1, current_start := (para.2 : Int) }

/-- `ChunkingService.chunk_text`: short text is a single chunk; otherwise
paragraphs are greedily accumulated with overlap and the trailing buffer is
flushed. -/
def ChunkingService.chunk_text (svc : ChunkingService) (text : List Char) :
    List Chunk :=
  if text = [] ∨ text.length < svc.min_chunk_size then
    [{ chunk_text := text, chunk_index := 0, char_start := 0,
       char_end := (text.length : Int) }]
  else
    let st := (splitIntoParagraphs text).foldl (chunkStep svc)
      { chunks := [], current_chunk := [], current_start := 0, chunk_index := 0 }
    if st.current_chunk = [] then st.chunks
    else
      st.chunks ++
        [{ chunk_text := pyStrip st.current_chunk,
           chunk_index := st.chunk_index,
           char_start := st.current_start,
           char_end := st.current_start + (st.current_chunk.length : Int) }]

/-! ## Hybrid OCR (`src/backend/app/services/hybrid_ocr.py`)

Provider calls are I/O; each raw provider response is modelled as an
`Except` value: `.ok` carries the structured response, `.error` a raised
exception's message.  Confidences are `ℚ`. -/

/-- One row of the `pytesseract.image_to_data` dictionary (parallel lists
`text`, `conf`, `line_num`, `block_num` zipped into records). -/
structure TessEntry where
  text : List Char
  conf : ℚ
  line_num : Nat
  block_num : Nat
deriving DecidableEq, Repr

/-- The `pytesseract.image_to_data(..., output_type=DICT)` response. -/
structure TessData where
  entries : List TessEntry
deriving DecidableEq, Repr

/-- The dict returned by the OCR provider methods: text, confidence,
provider tag, per-word confidences, and the optional `error` key. -/
structure OCRResult where
  text : List Char
  confidence : ℚ
  provider : List Char
  word_confidences : List (List Char × ℚ)
  error : Option (List Char) := none
deriving DecidableEq, Repr

/-- `HybridOCR._calculate_weighted_confidence`: length-weighted mean with
weight `max(1, len(word)/3)`, or `0.0` for an empty word list / zero total
weight. -/
def calculateWeightedConfidence (wcs : List (List Char × ℚ)) : ℚ :=
  if wcs = [] then 0
  else
    let acc := wcs.foldl
      (fun (a : ℚ × ℚ) wc =>
        let weight := max 1 ((wc.1.length : ℚ) / 3)
        (a.1 + wc.2 * weight, a.2 + weight))
      (0, 0)
    if 0 < acc.2 then acc.1 / acc.2 else 0

/-- The spec's formula for §3 OCRResult confidence: sum of
`conf·max(1, len/3)` over the words divided by the sum of the weights. -/
def specWeightedMean (wcs : List (List Char × ℚ)) : ℚ :=
  (wcs.map (fun wc => wc.2 * max 1 ((wc.1.length : ℚ) / 3))).sum /
    (wcs.map (fun wc => max 1 ((wc.1.length : ℚ) / 3))).sum

/-- The word/confidence extraction loop of `_tesseract_ocr_with_confidence`:
keep entries whose stripped text is non-empty and whose confidence is not
the -1 sentinel, scaling 0-100 to 0-1. -/
def tessWordConfidences (d : TessData) : List (List Char × ℚ) :=
  d.entries.filterMap fun e =>
    let word := pyStrip e.text
    if word ≠ [] ∧ e.conf ≠ -1 then some (word, e.conf / 100) else none

/-- Append a word to the `(block_num, line_num)` bucket of the insertion-
ordered line map built by `_reconstruct_text`. -/
def addToLines (key : Nat × Nat) (t : List Char) :
    List ((Nat × Nat) × List (List Char)) → List ((Nat × Nat) × List (List Char))
  | [] => [(key, [t])]
  | kv :: rest =>
      if kv.1 = key then (kv.1, kv.2 ++ [t]) :: rest else kv :: addToLines key t rest

/-- Lexicographic order on `(block_num, line_num)` keys, as
`sorted(lines.keys())` uses on tuples. -/
def keyLe (a b : Nat × Nat) : Bool :=
  a.1 < b.1 || (a.1 = b.1 && a.2 ≤ b.2)

/-- Insertion step of sorting the line keys. -/
def insertLine (x : (Nat × Nat) × List (List Char)) :
    List ((Nat × Nat) × List (List Char)) → List ((Nat × Nat) × List (List Char))
  | [] => [x]
  | y :: ys => if keyLe x.1 y.1 then x :: y :: ys else y :: insertLine x ys

/-- `sorted` over the line map entries by key. -/
def sortLines (l : List ((Nat × Nat) × List (List Char))) :
    List ((Nat × Nat) × List (List Char)) :=
  l.foldr insertLine []

/-- Python `sep.join(parts)`. -/
def joinWith (sep : List Char) : List (List Char) → List Char
  | [] => []
  | [x] => x
  | x :: xs => x ++ sep ++ joinWith sep xs

/-- `HybridOCR._reconstruct_text`: group non-blank words by
`(block_num, line_num)`, sort the keys, join words with spaces and lines
with newlines. -/
def reconstructText (d : TessData) : List Char :=
  let lines := d.entries.foldl
    (fun acc e =>
      if pyStrip e.text ≠ [] then addToLines (e.block_num, e.line_num) e.text acc
      else acc)
    []
  joinWith ['\n'] ((sortLines lines).map (fun kv => joinWith [' '] kv.2))

/-- `HybridOCR._tesseract_ocr_with_confidence`.  The body has no
try/except, so a raised provider exception (`.error`) propagates. -/
def tesseractOCRWithConfidence (raw : Except (List Char) TessData) :
    Except (List Char) OCRResult :=
  raw.map fun d =>
    let wcs := tessWordConfidences d
    { text := reconstructText d,
      confidence := calculateWeightedConfidence wcs,
      provider := "tesseract".toList,
      word_confidences := wcs }

/-- One word of a Google Vision response: its symbols with per-symbol
confidences. -/
structure GVWord where
  symbols : List (Char × ℚ)
deriving DecidableEq, Repr

/-- `response.full_text_annotation` when present: the full text and the
words flattened across pages/blocks/paragraphs in traversal order. -/
structure GVAnnotation where
  text : List Char
  words : List GVWord
deriving DecidableEq, Repr

/-- A Google Vision response; `annotation = none` models a falsy
`full_text_annotation`.  A response whose `error.message` is set is raised
in the source and therefore lands in the surrounding `.error` case. -/
structure GVData where
  annotation : Option GVAnnotation
deriving DecidableEq, Repr

/-- `HybridOCR._google_vision_ocr`: no client gives the not-initialized
error result; an exception is caught and becomes a confidence-0.0 result;
otherwise the confidence is the unweighted mean of per-word mean symbol
confidences. -/
def googleVisionOCR (clientInit : Bool) (raw : Except (List Char) GVData) :
    OCRResult :=
  if ¬ clientInit then
    { text := [], confidence := 0, provider := "google_vision".toList,
      word_confidences := [],
      error := some "Google Vision client not initialized".toList }
  else
    match raw with
    | .error e =>
        { text := [], confidence := 0, provider := "google_vision".toList,
          word_confidences := [], error := some e }
    | .ok d =>
        match d.annotation with
        | none =>
            { text := [], confidence := 0, provider := "google_vision".toList,
              word_confidences := [] }
        | some ann =>
            let wcs := ann.words.map fun w =>
              (w.symbols.map Prod.fst,
               if w.symbols = [] then 0
               else (w.symbols.map Prod.snd).sum / (w.symbols.length : ℚ))
            let confs := wcs.map Prod.snd
            { text := ann.text,
              confidence := if confs = [] then 0 else confs.sum / (confs.length : ℚ),
              provider := "google_vision".toList,
              word_confidences := wcs }

/-- `HybridOCR.extract_text_with_confidence`, instrumented with a Bool
recording whether the fallback provider was invoked.  `clientInit` models
`google_vision_client is not None`, `enabled` models
`settings.GOOGLE_VISION_ENABLED`. -/
def extractTextWithConfidence (enabled clientInit : Bool)
    (tessRaw : Except (List Char) TessData) (gvRaw : Except (List Char) GVData) :
    Except (List Char) OCRResult × Bool :=
  match tesseractOCRWithConfidence tessRaw with
  | .error e => (.error e, false)
  | .ok tr =>
      if tr.confidence < 65 / 100 ∧ clientInit = true ∧ enabled = true then
        let gr := googleVisionOCR clientInit gvRaw
        (if gr.confidence > tr.confidence then .ok gr else .ok tr, true)
      else
        (.ok tr, false)

/-! ## Redis broker (`src/backend/app/services/redis_client.py`)

The payload type is a parameter `J` (the domain of parsed JSON values);
`json.dumps`/`json.loads` round-trip exactly on such values, so a queue
entry is modelled as the structured job record itself.  Redis lists are
`List` with the head at the left (`LPUSH` prepends, `RPOP` removes the
rightmost element). -/

/-- The job record `{id, data, status, created_at}` pushed on the queue. -/
structure QueuedJob (J : Type) where
  id : List Char
  data : J
  status : List Char
  created_at : Option Unit
deriving DecidableEq, Repr

/-- The `job:{id}` status hash with its TTL. -/
structure JobHash (J : Type) where
  status : List Char
  queue : List Char
  data : Option J := none
  result : Option J := none
  error : Option (List Char) := none
  ttl : Option Nat := none
deriving DecidableEq, Repr

/-- The Redis keyspace touched by the client: queue lists and job hashes. -/
structure RedisState (J : Type) where
  queues : List Char → List (QueuedJob J)
  jobs : List Char → Option (JobHash J)

/-- Point update of a keyed map. -/
def updateFn {α : Type} (f : List Char → α) (k : List Char) (v : α) :
    List Char → α :=
  fun x => if x = k then v else f x

/-- `RedisClient.enqueue_job`: build the pending job record, `LPUSH` it on
`queue:{queue_name}`, write the `job:{job_id}` hash, set its 24h expiry and
return the id.  The fresh uuid4 is the `job_id` argument. -/
def enqueueJob {J : Type} (st : RedisState J) (queue_name : List Char)
    (job_data : J) (job_id : List Char) : RedisState J × List Char :=
  let key := "queue:".toList ++ queue_name
  let job : QueuedJob J :=
    { id := job_id, data := job_data, status := "pending".toList, created_at := none }
  ({ queues := updateFn st.queues key (job :: st.queues key),
     jobs := updateFn st.jobs ("job:".toList ++ job_id)
       (some { status := "pending".toList, queue := queue_name,
               data := some job_data, ttl := some 86400 }) },
   job_id)

/-- `RedisClient.dequeue_job`: `RPOP` from `queue:{queue_name}`; on a hit,
parse the record and return its `data` field, else `None`. -/
def dequeueJob {J : Type} (st : RedisState J) (queue_name : List Char) :
    RedisState J × Option J :=
  let key := "queue:".toList ++ queue_name
  match (st.queues key).getLast? with
  | none => (st, none)
  | some job =>
      ({ st with queues := updateFn st.queues key (st.queues key).dropLast },
       some job.data)

/-- `RedisClient.update_job_status`: `HSET` of the status, plus the result
when not `None` and the error when truthy (non-empty); an absent hash is
created by `HSET`. -/
def updateJobStatus {J : Type} (st : RedisState J) (job_id : List Char)
    (status : List Char) (result : Option J) (error : Option (List Char)) :
    RedisState J :=
  let key := "job:".toList ++ job_id
  let base := (st.jobs key).getD { status := [], queue := [] }
  let h1 := { base with status := status }
  let h2 := match result with
    | some r => { h1 with result := some r }
    | none => h1
  let h3 := match error with
    | some e => if e ≠ [] then { h2 with error := some e } else h2
    | none => h2
  { st with jobs := updateFn st.jobs key (some h3) }

/-! ## Vector store hybrid search (`src/backend/app/services/vector_store.py`)

The SQL of `VectorStore.hybrid_search` is modelled over its joined rows.
A candidate row is one chunk of the course from the `vector_results` CTE;
`text_score = some s` means the chunk also matched the full-text query in
the `text_results` CTE (the LEFT JOIN partner), `none` that it did not.
Chunk metadata columns (text, resource, title) are carried by `id` and are
orthogonal to the scoring, so they are projected away.  `ORDER BY
combined_score DESC` has no secondary sort key, so PostgreSQL's order among
equal scores is unspecified; the embedding refines it deterministically by
keeping tied rows in candidate order (a stable sort). -/

/-- A joined candidate row of `hybrid_search` before scoring. -/
structure CandidateRow where
  id : Nat
  vector_score : ℚ
  text_score : Option ℚ
deriving DecidableEq, Repr

/-- A scored output row: `text_score` after `COALESCE(tr.text_score, 0)`. -/
structure ScoredRow where
  id : Nat
  vector_score : ℚ
  text_score : ℚ
  combined_score : ℚ
deriving DecidableEq, Repr

/-- The SELECT list: coalesce the lexical score and form
`vector_score * 0.7 + text_score * 0.3`. -/
def scoreRow (r : CandidateRow) : ScoredRow :=
  let ts := r.text_score.getD 0
  { id := r.id, vector_score := r.vector_score, text_score := ts,
    combined_score := r.vector_score * (7 / 10) + ts * (3 / 10) }

/-- Stable descending insertion by combined score: a row moves ahead only
of rows with strictly smaller combined score. -/
def insertByCombined (x : ScoredRow) : List ScoredRow → List ScoredRow
  | [] => [x]
  | y :: ys =>
      if x.combined_score > y.combined_score then x :: y :: ys
      else y :: insertByCombined x ys

/-- `ORDER BY combined_score DESC` as a stable sort. -/
def orderByCombinedDesc (l : List ScoredRow) : List ScoredRow :=
  l.foldl (fun acc x => insertByCombined x acc) []

/-- `VectorStore.hybrid_search` over its candidate rows: score, order by
combined score descending, `LIMIT limit`. -/
def hybridSearch (candidates : List CandidateRow) (limit : Nat) :
    List ScoredRow :=
  (orderByCombinedDesc (candidates.map scoreRow)).take limit

/-! ## Chunking worker (`src/backend/app/workers/chunking_worker.py`)

The fallible I/O steps inside `process_chunking_job` — the embedding
provider call and the vector-store insert — are modelled as `Except`
parameters (`.error` = the call raised), as is the rollback commit in the
failure handler.  The resource row and the websocket broadcasts are folded
into a `ResourceState`. -/

/-- Job status strings written through `update_job_status`. -/
def statusProcessing : List Char := "processing".toList

/-- The terminal success status string. -/
def statusCompleted : List Char := "completed".toList

/-- The terminal failure status string (never written by any worker). -/
def statusFailed : List Char := "failed".toList

/-- The document/resource side effects of a chunking job: whether the
resource row exists, its `is_processed` flag, the course id used for
broadcasts, and the `processing_status` broadcasts issued so far. -/
structure ResourceState where
  found : Bool
  is_processed : Bool
  course_id : Option (List Char)
  broadcasts : List (List Char)
deriving DecidableEq, Repr

/-- `broadcast_processing_status`, guarded by `if course_id:` as in the
worker. -/
def broadcastStatus (st : ResourceState) (s : List Char) : ResourceState :=
  if st.course_id.isSome then { st with broadcasts := st.broadcasts ++ [s] }
  else st

/-- The `except` handler of `process_chunking_job`: broadcast `failed`,
then try to re-fetch the resource and commit `is_processed = False`; a
raise inside that inner try is swallowed and leaves the flag as it was. -/
def chunkingFailHandler (st : ResourceState) (rollbackR : Except (List Char) Unit) :
    ResourceState :=
  let st1 := broadcastStatus st statusFailed
  match rollbackR with
  | .ok _ => { st1 with is_processed := false }
  | .error _ => st1

/-- `process_chunking_job`: fetch the resource, broadcast `processing`,
chunk, embed, insert, mark processed and broadcast `completed`; any raise
from the embed/insert steps is caught by the enclosing handler.  All
exceptions are caught, so the function itself never raises. -/
def processChunkingJob (text : List Char)
    (embedR insertR rollbackR : Except (List Char) Unit)
    (st : ResourceState) : ResourceState :=
  if st.found = false then st
  else
    let st1 := broadcastStatus st statusProcessing
    let chunks := chunking_service.chunk_text text
    if chunks = [] then { st1 with is_processed := true }
    else
      match embedR with
      | .error _ => chunkingFailHandler st1 rollbackR
      | .ok _ =>
          match insertR with
          | .error _ => chunkingFailHandler st1 rollbackR
          | .ok _ =>
              broadcastStatus { st1 with is_processed := true } statusCompleted

/-- One dequeued-job iteration of the `chunking_worker` loop: set the job
status to `processing`, run `process_chunking_job` (which returns normally
even when a step failed), then set the status to `completed`
unconditionally. -/
def chunkingWorkerIteration {J : Type} (rst : RedisState J) (job : QueuedJob J)
    (text : List Char) (embedR insertR rollbackR : Except (List Char) Unit)
    (resultPayload : J) (res : ResourceState) : RedisState J × ResourceState :=
  let rst1 := updateJobStatus rst job.id statusProcessing none none
  let res1 := processChunkingJob text embedR insertR rollbackR res
  let rst2 := updateJobStatus rst1 job.id statusCompleted (some resultPayload) none
  (rst2, res1)

/-! ## WebSocket connection manager (`src/backend/app/services/websocket.py`)

WebSocket objects are opaque handles, modelled as `Nat`.  The two dicts are
keyed maps to `Option`; a room's member set is a duplicate-free list whose
`discard` is `filter`.  `sendFails ws = true` models `ws.send_text` raising
(`WebSocketDisconnect` or any other exception — both branches collect the
connection as dead). -/

/-- The two-way registry: `active_connections` (course id → connections)
and `connection_users` (connection → user id). -/
structure ConnectionManager where
  active_connections : List Char → Option (List Nat)
  connection_users : Nat → Option (List Char)

/-- `ConnectionManager.disconnect`: discard the connection from the room if
the room exists, delete the room when it became empty, pop and return the
user id. -/
def ConnectionManager.disconnect (m : ConnectionManager) (ws : Nat)
    (course_id : List Char) : ConnectionManager × Option (List Char) :=
  let m1 :=
    match m.active_connections course_id with
    | none => m
    | some conns =>
        let conns1 := conns.filter (fun c => c ≠ ws)
        if conns1 = [] then
          { m with active_connections :=
              fun k => if k = course_id then none else m.active_connections k }
        else
          { m with active_connections :=
              fun k => if k = course_id then some conns1 else m.active_connections k }
  ({ m1 with connection_users := fun w => if w = ws then none else m1.connection_users w },
   m.connection_users ws)

/-- `ConnectionManager.broadcast_to_course`: no-op on an unknown room;
otherwise send to every connection except `excl`, collect the connections
whose send raised, and disconnect each of them. -/
def ConnectionManager.broadcast_to_course (m : ConnectionManager)
    (course_id : List Char) (excl : Option Nat) (sendFails : Nat → Bool) :
    ConnectionManager :=
  match m.active_connections course_id with
  | none => m
  | some conns =>
      let dead := conns.filter (fun c => decide (excl ≠ some c) && sendFails c)
      dead.foldl (fun acc d => (acc.disconnect d course_id).1) m

/-- The registry invariant: every room present in `active_connections` has
a non-empty connection set. -/
def RoomsNonempty (m : ConnectionManager) : Prop :=
  ∀ c l, m.active_connections c = some l → l ≠ []

/-! ## Theorems: Chunker -/

/-- The chunk-ordinal invariant of the `chunk_text` loop state: the
accumulated chunks carry indices `0..n-1` in order and the running
`chunk_index` is the next free ordinal. -/
def ChunkIndexInv (st : ChunkState) : Prop :=
  st.chunks.map Chunk.chunk_index = List.range st.chunks.length ∧
  st.chunk_index = st.chunks.length

/-- Appending a chunk bearing the running ordinal preserves the ordinal
invariant. -/
theorem chunkIndexInv_append (st : ChunkState) (c : Chunk)
    (h : ChunkIndexInv st) (hc : c.chunk_index = st.chunk_index) :
    (st.chunks ++ [c]).map Chunk.chunk_index = List.range (st.chunks ++ [c]).length ∧
    st.chunk_index + 1 = (st.chunks ++ [c]).length := by
  obtain ⟨h1, h2⟩ := h
  constructor
  · simp [List.map_append, List.length_append, List.range_succ, h1, h2, hc]
  · simp [List.length_append, h2]

/-- One `chunkStep` preserves the ordinal invariant. -/
theorem chunkStep_inv (svc : ChunkingService) (st : ChunkState)
    (p : List Char × Nat) (h : ChunkIndexInv st) :
    ChunkIndexInv (chunkStep svc st p) := by
  obtain ⟨h1, h2⟩ := h
  unfold chunkStep
  dsimp only
  split_ifs
  all_goals
    first
      | exact ⟨h1, h2⟩
      | exact chunkIndexInv_append st _ ⟨h1, h2⟩ rfl

/-- Folding `chunkStep` over any paragraph list preserves the ordinal
invariant. -/
theorem foldl_chunkStep_inv (svc : ChunkingService)
    (ps : List (List Char × Nat)) :
    ∀ st, ChunkIndexInv st → ChunkIndexInv (ps.foldl (chunkStep svc) st) := by
  induction ps with
  | nil => intro st h; exact h
  | cons p ps ih => intro st h; exact ih _ (chunkStep_inv svc st p h)

/-- C1.  Text shorter than `min_chunk_size` (100 in the default service) is
returned as exactly one chunk with ordinal 0 spanning offsets 0..len,
including the empty text. -/
theorem chunk_text_short (t : List Char) (h : t.length < 100) :
    chunking_service.chunk_text t =
      [{ chunk_text := t, chunk_index := 0, char_start := 0,
         char_end := (t.length : Int) }] := by
  unfold ChunkingService.chunk_text
  have h' : t = [] ∨ t.length < chunking_service.min_chunk_size := Or.inr h
  rw [if_pos h']

/-- C1 witness: the short-text theorem evaluated at the empty text and at
`"hello"`. -/
theorem chunk_text_short_witness :
    chunking_service.chunk_text [] =
      [{ chunk_text := [], chunk_index := 0, char_start := 0, char_end := 0 }] ∧
    chunking_service.chunk_text "hello".toList =
      [{ chunk_text := "hello".toList, chunk_index := 0, char_start := 0,
         char_end := 5 }] :=
  ⟨chunk_text_short [] (by decide), chunk_text_short "hello".toList (by decide)⟩

/-- C2.  For every input and every parameterization, the chunk list carries
`chunk_index` values exactly `0, 1, ..., n-1` in list order — no gaps, no
repeats. -/
theorem chunk_text_indices (svc : ChunkingService) (t : List Char) :
    (svc.chunk_text t).map Chunk.chunk_index =
      List.range (svc.chunk_text t).length := by
  unfold ChunkingService.chunk_text
  split
  · simp [List.range_succ]
  · dsimp only
    obtain ⟨g1, g2⟩ := foldl_chunkStep_inv svc (splitIntoParagraphs t)
      { chunks := [], current_chunk := [], current_start := 0, chunk_index := 0 }
      ⟨rfl, rfl⟩
    split
    · exact g1
    · simp [List.map_append, List.length_append, List.range_succ, g1, g2]

set_option maxRecDepth 100000 in
/-- C9.  `chunk_text` is total by construction, but chunk length is not
bounded by `chunk_size`: a single paragraph of 801 characters is emitted
as one chunk of length 801 > 800 under the default service.  `chunk_size`
limits only the greedy accumulation step. -/
theorem chunk_text_unbounded :
    ∃ c ∈ chunking_service.chunk_text (List.replicate 801 'a'),
      chunking_service.chunk_size < c.chunk_text.length := by
  decide

/-! ## Theorems: Hybrid OCR -/

/-- The weighted-sum fold of `_calculate_weighted_confidence` accumulates
exactly the sums of `conf·weight` and of the weights. -/
theorem weightedFold_eq_sums (wcs : List (List Char × ℚ)) :
    ∀ a : ℚ × ℚ,
      wcs.foldl
        (fun (a : ℚ × ℚ) wc =>
          let weight := max 1 ((wc.1.length : ℚ) / 3)
          (a.1 + wc.2 * weight, a.2 + weight)) a =
      (a.1 + (wcs.map (fun wc => wc.2 * max 1 ((wc.1.length : ℚ) / 3))).sum,
       a.2 + (wcs.map (fun wc => max 1 ((wc.1.length : ℚ) / 3))).sum) := by
  induction wcs with
  | nil => intro a; simp
  | cons wc rest ih =>
      intro a
      simp only [List.foldl_cons, List.map_cons, List.sum_cons, ih]
      simp [add_assoc]

/-- Every weight `max(1, len/3)` is at least 1, so the total weight of a
non-empty word list is positive. -/
theorem totalWeight_pos (wcs : List (List Char × ℚ)) (h : wcs ≠ []) :
    0 < (wcs.map (fun wc => max 1 ((wc.1.length : ℚ) / 3))).sum := by
  apply List.sum_pos
  · intro x hx
    simp only [List.mem_map] at hx
    obtain ⟨wc, _, rfl⟩ := hx
    have h1 : (1 : ℚ) ≤ max 1 ((wc.1.length : ℚ) / 3) := le_max_left _ _
    linarith
  · simp [h]

/-- `_calculate_weighted_confidence` on a non-empty word list equals the
spec's length-weighted mean. -/
theorem calcWC_eq_specWM (wcs : List (List Char × ℚ)) (h : wcs ≠ []) :
    calculateWeightedConfidence wcs = specWeightedMean wcs := by
  have hpos := totalWeight_pos wcs h
  unfold calculateWeightedConfidence specWeightedMean
  rw [if_neg h]
  dsimp only
  rw [weightedFold_eq_sums wcs (0, 0)]
  simp only [zero_add]
  rw [if_pos hpos]

/-- The spec's §8 example word list `[("a", 0.90), ("elephant", 0.50)]`:
the computed confidence is exactly 67/110. -/
theorem calcWC_example :
    calculateWeightedConfidence
      [(['a'], 9 / 10), (['e', 'l', 'e', 'p', 'h', 'a', 'n', 't'], 1 / 2)] =
      67 / 110 := by
  rw [calcWC_eq_specWM _ (List.cons_ne_nil _ _)]
  simp only [specWeightedMean, List.map_cons, List.map_nil, List.sum_cons,
    List.sum_nil, List.length_cons, List.length_nil]
  norm_num [max_def]

/-- C3 counterexample.  On `[("a", 0.90), ("elephant", 0.50)]` the computed
confidence is 67/110 ≈ 0.609, which is NOT within ±0.01 of 0.59 as the
claim asserts. -/
theorem weighted_confidence_example_not_059 :
    ¬ |calculateWeightedConfidence
        [(['a'], 9 / 10), (['e', 'l', 'e', 'p', 'h', 'a', 'n', 't'], 1 / 2)] -
        59 / 100| ≤ 1 / 100 := by
  rw [calcWC_example]
  rw [abs_le]
  norm_num

/-- C3 (amended).  `_calculate_weighted_confidence` is the length-weighted
mean of the per-word confidences with weight `max(1, len(word)/3)`; on the
word list `[("a", 0.90), ("elephant", 0.50)]` it computes 67/110 ≈ 0.609,
which is within ±0.01 of 0.61 (not of 0.59). -/
theorem weighted_confidence_spec :
    (∀ wcs, wcs ≠ [] → calculateWeightedConfidence wcs = specWeightedMean wcs) ∧
    calculateWeightedConfidence
      [(['a'], 9 / 10), (['e', 'l', 'e', 'p', 'h', 'a', 'n', 't'], 1 / 2)] =
      67 / 110 ∧
    |(67 : ℚ) / 110 - 61 / 100| ≤ 1 / 100 := by
  refine ⟨fun wcs h => calcWC_eq_specWM wcs h, calcWC_example, ?_⟩
  rw [abs_le]
  norm_num

/-- C3 witness: the formula equation evaluated on a singleton word list. -/
theorem weighted_confidence_spec_witness :
    calculateWeightedConfidence [(['a'], 9 / 10)] =
      specWeightedMean [(['a'], 9 / 10)] :=
  weighted_confidence_spec.1 [(['a'], 9 / 10)] (List.cons_ne_nil _ _)

/-- The concrete Tesseract response used by witnesses: one word "word" at
provider confidence 40 (scaled to 0.40). -/
def tessExample : TessData :=
  { entries := [{ text := "word".toList, conf := 40, line_num := 1, block_num := 1 }] }

/-- The word list extracted from `tessExample`. -/
theorem tessExample_words :
    tessWordConfidences tessExample = [("word".toList, 40 / 100)] := by
  simp only [tessWordConfidences, tessExample, List.filterMap_cons,
    List.filterMap_nil]
  rw [if_pos]
  · rfl
  · exact ⟨by decide, by norm_num⟩

/-- The weighted confidence of `tessExample` is 0.40 ("word" has weight
`max(1, 4/3) = 4/3`, and a single word's weighted mean is its own
confidence). -/
theorem tessExample_confidence :
    calculateWeightedConfidence (tessWordConfidences tessExample) = 40 / 100 := by
  rw [tessExample_words, calcWC_eq_specWM _ (List.cons_ne_nil _ _)]
  simp only [specWeightedMean, List.map_cons, List.map_nil, List.sum_cons,
    List.sum_nil, List.length_cons, List.length_nil]
  norm_num [max_def]

/-- C4.  The fallback provider is invoked iff the primary confidence is
below 0.65 and the fallback is configured (`clientInit`) and enabled; it is
invoked at confidence 0.40, not at 0.80; when both ran the returned result
has the higher of the two confidences, and when only the primary ran its
result is returned. -/
theorem extract_fallback_policy (enabled clientInit : Bool)
    (tessRaw : Except (List Char) TessData) (gvRaw : Except (List Char) GVData)
    (tr : OCRResult) (h : tesseractOCRWithConfidence tessRaw = .ok tr) :
    ((extractTextWithConfidence enabled clientInit tessRaw gvRaw).2 = true ↔
      tr.confidence < 65 / 100 ∧ clientInit = true ∧ enabled = true) ∧
    (tr.confidence = 40 / 100 → clientInit = true → enabled = true →
      (extractTextWithConfidence enabled clientInit tessRaw gvRaw).2 = true) ∧
    (tr.confidence = 80 / 100 →
      (extractTextWithConfidence enabled clientInit tessRaw gvRaw).2 = false) ∧
    ((extractTextWithConfidence enabled clientInit tessRaw gvRaw).2 = true →
      ∃ r, (extractTextWithConfidence enabled clientInit tessRaw gvRaw).1 = .ok r ∧
        r.confidence =
          max tr.confidence (googleVisionOCR clientInit gvRaw).confidence) ∧
    ((extractTextWithConfidence enabled clientInit tessRaw gvRaw).2 = false →
      (extractTextWithConfidence enabled clientInit tessRaw gvRaw).1 = .ok tr) := by
  unfold extractTextWithConfidence
  rw [h]
  dsimp only
  by_cases hc : tr.confidence < 65 / 100 ∧ clientInit = true ∧ enabled = true
  · rw [if_pos hc]
    refine ⟨by simp [hc], fun _ _ _ => rfl, ?_, ?_, ?_⟩
    · intro h80
      exfalso
      rw [h80] at hc
      have h1 := hc.1
      norm_num at h1
    · intro _
      by_cases hg : (googleVisionOCR clientInit gvRaw).confidence > tr.confidence
      · exact ⟨googleVisionOCR clientInit gvRaw, by simp [hg],
          (max_eq_right (le_of_lt hg)).symm⟩
      · exact ⟨tr, by simp [hg], (max_eq_left (not_lt.mp hg)).symm⟩
    · intro hfalse
      simp at hfalse
  · rw [if_neg hc]
    refine ⟨by simp [hc], ?_, fun _ => rfl, by simp, fun _ => rfl⟩
    intro h40 hci hen
    exact absurd ⟨by rw [h40]; norm_num, hci, hen⟩ hc

/-- C4 witness: a primary result at confidence 0.40 with an available,
enabled fallback does invoke the fallback provider. -/
theorem extract_fallback_policy_witness :
    (extractTextWithConfidence true true (.ok tessExample)
      (.ok { annotation := some { text := "ok".toList,
                                  words := [{ symbols := [('o', 9 / 10)] }] } })).2 =
      true :=
  (extract_fallback_policy true true (.ok tessExample)
    (.ok { annotation := some { text := "ok".toList,
                                words := [{ symbols := [('o', 9 / 10)] }] } })
    { text := reconstructText tessExample,
      confidence := calculateWeightedConfidence (tessWordConfidences tessExample),
      provider := "tesseract".toList,
      word_confidences := tessWordConfidences tessExample }
    rfl).2.1 tessExample_confidence rfl rfl

/-- C5 counterexample.  An exception raised by the primary (Tesseract)
provider is NOT caught: extraction propagates it instead of degrading to a
confidence-0.0 result. -/
theorem ocr_exception_counterexample :
    extractTextWithConfidence true true (.error "boom".toList)
      (.ok { annotation := none }) =
      (.error "boom".toList, false) := rfl

/-- C5 (amended).  An exception from the fallback (Google Vision) provider
is caught inside its call and becomes a confidence-0.0 result, so a
primary result with non-negative confidence still wins and extraction
returns normally; an empty word list yields a valid confidence-0.0 result;
but an exception from the primary (Tesseract) provider is not caught and
propagates out of extraction. -/
theorem ocr_exception_handling :
    (∀ e, googleVisionOCR true (.error e) =
      { text := [], confidence := 0, provider := "google_vision".toList,
        word_confidences := [], error := some e }) ∧
    (∀ (enabled clientInit : Bool) tessRaw (e : List Char) tr,
      tesseractOCRWithConfidence tessRaw = .ok tr → 0 ≤ tr.confidence →
      (extractTextWithConfidence enabled clientInit tessRaw (.error e)).1 = .ok tr) ∧
    calculateWeightedConfidence [] = 0 ∧
    (∀ d, tessWordConfidences d = [] →
      ∃ r, tesseractOCRWithConfidence (.ok d) = .ok r ∧ r.confidence = 0) ∧
    (∀ (e : List Char) (enabled clientInit : Bool) gvRaw,
      extractTextWithConfidence enabled clientInit (.error e) gvRaw =
        (.error e, false)) := by
  refine ⟨fun e => rfl, ?_, rfl, ?_, fun e enabled clientInit gvRaw => rfl⟩
  · intro enabled clientInit tessRaw e tr h hnn
    unfold extractTextWithConfidence
    rw [h]
    dsimp only
    by_cases hc : tr.confidence < 65 / 100 ∧ clientInit = true ∧ enabled = true
    · rw [if_pos hc]
      have hzero : (googleVisionOCR clientInit (.error e)).confidence = 0 := by
        unfold googleVisionOCR
        cases clientInit <;> simp
      rw [if_neg]
      rw [hzero]
      exact not_lt.mpr hnn
    · rw [if_neg hc]
  · intro d hd
    refine ⟨_, rfl, ?_⟩
    show calculateWeightedConfidence (tessWordConfidences d) = 0
    rw [hd]
    rfl

/-- C5 witness: a fallback-provider exception leaves the primary result in
place (confidence 0.40 primary, raising fallback). -/
theorem ocr_exception_handling_witness :
    (extractTextWithConfidence true true (.ok tessExample) (.error "x".toList)).1 =
      .ok { text := reconstructText tessExample,
            confidence := calculateWeightedConfidence (tessWordConfidences tessExample),
            provider := "tesseract".toList,
            word_confidences := tessWordConfidences tessExample } :=
  ocr_exception_handling.2.1 true true (.ok tessExample) "x".toList
    { text := reconstructText tessExample,
      confidence := calculateWeightedConfidence (tessWordConfidences tessExample),
      provider := "tesseract".toList,
      word_confidences := tessWordConfidences tessExample }
    rfl
    (by rw [tessExample_confidence]; norm_num)

/-! ## Theorems: Broker queue -/

/-- A point update of the keyed map reads back the new value. -/
theorem updateFn_self {α : Type} (f : List Char → α) (k : List Char) (v : α) :
    updateFn f k v k = v := by
  simp [updateFn]

/-- `dequeue_job` on a queue whose list is `l ++ [j]` pops `j` (the oldest,
rightmost entry) and leaves `l`. -/
theorem dequeueJob_eq {J : Type} (st : RedisState J) (q : List Char)
    (l : List (QueuedJob J)) (j : QueuedJob J)
    (h : st.queues ("queue:".toList ++ q) = l ++ [j]) :
    dequeueJob st q =
      ({ st with queues := updateFn st.queues ("queue:".toList ++ q) l },
       some j.data) := by
  unfold dequeueJob
  dsimp only
  rw [h, List.getLast?_concat, List.dropLast_concat]

/-- C7.  On an otherwise-empty queue, `enqueue_job` then `dequeue_job`
returns exactly the enqueued payload; with two jobs enqueued, dequeues
return the payloads oldest-first (FIFO per queue). -/
theorem enqueue_dequeue_fifo {J : Type} (st : RedisState J) (q : List Char)
    (p1 p2 : J) (id1 id2 : List Char)
    (h : st.queues ("queue:".toList ++ q) = []) :
    (dequeueJob (enqueueJob st q p1 id1).1 q).2 = some p1 ∧
    (dequeueJob (enqueueJob (enqueueJob st q p1 id1).1 q p2 id2).1 q).2 = some p1 ∧
    (dequeueJob
      (dequeueJob (enqueueJob (enqueueJob st q p1 id1).1 q p2 id2).1 q).1 q).2 =
      some p2 := by
  have hq1 : (enqueueJob st q p1 id1).1.queues ("queue:".toList ++ q) =
      [{ id := id1, data := p1, status := "pending".toList, created_at := none }] := by
    show updateFn st.queues ("queue:".toList ++ q) _ ("queue:".toList ++ q) = _
    rw [updateFn_self, h]
  have hq2 : (enqueueJob (enqueueJob st q p1 id1).1 q p2 id2).1.queues
      ("queue:".toList ++ q) =
      [{ id := id2, data := p2, status := "pending".toList, created_at := none },
       { id := id1, data := p1, status := "pending".toList, created_at := none }] := by
    show updateFn (enqueueJob st q p1 id1).1.queues ("queue:".toList ++ q) _
      ("queue:".toList ++ q) = _
    rw [updateFn_self, hq1]
  have hd2 := dequeueJob_eq (enqueueJob (enqueueJob st q p1 id1).1 q p2 id2).1 q
    [{ id := id2, data := p2, status := "pending".toList, created_at := none }]
    { id := id1, data := p1, status := "pending".toList, created_at := none }
    (by rw [hq2]; rfl)
  refine ⟨?_, ?_, ?_⟩
  · rw [dequeueJob_eq (enqueueJob st q p1 id1).1 q []
      { id := id1, data := p1, status := "pending".toList, created_at := none }
      (by rw [hq1]; rfl)]
  · rw [hd2]
  · rw [hd2]
    rw [dequeueJob_eq _ q []
      { id := id2, data := p2, status := "pending".toList, created_at := none }
      (by
        show updateFn _ ("queue:".toList ++ q) _ ("queue:".toList ++ q) = _
        rw [updateFn_self]
        exact rfl)]

/-- C7 witness: round-trip and FIFO evaluated on a concrete empty state
with payloads 111 and 222 on the `chunking` queue. -/
theorem enqueue_dequeue_fifo_witness :
    (dequeueJob (enqueueJob (J := Nat) ⟨fun _ => [], fun _ => none⟩
      "chunking".toList 111 "id1".toList).1 "chunking".toList).2 = some 111 :=
  (enqueue_dequeue_fifo ⟨fun _ => [], fun _ => none⟩ "chunking".toList
    111 222 "id1".toList "id2".toList rfl).1

/-! ## Theorems: Hybrid search -/

/-- Membership through one descending insertion. -/
theorem mem_insertByCombined (x y : ScoredRow) (l : List ScoredRow) :
    y ∈ insertByCombined x l ↔ y = x ∨ y ∈ l := by
  induction l with
  | nil => simp [insertByCombined]
  | cons z zs ih =>
      simp only [insertByCombined]
      split
      · simp [List.mem_cons]
      · simp only [List.mem_cons, ih]
        tauto

/-- Membership through the sorting fold. -/
theorem mem_orderFold (l : List ScoredRow) :
    ∀ acc y,
      y ∈ l.foldl (fun acc x => insertByCombined x acc) acc ↔ y ∈ acc ∨ y ∈ l := by
  induction l with
  | nil => simp
  | cons z zs ih =>
      intro acc y
      rw [List.foldl_cons, ih, mem_insertByCombined]
      simp only [List.mem_cons]
      tauto

/-- Inserting into a list sorted by descending combined score keeps it
sorted. -/
theorem sorted_insertByCombined (x : ScoredRow) (l : List ScoredRow)
    (h : l.Pairwise (fun a b => b.combined_score ≤ a.combined_score)) :
    (insertByCombined x l).Pairwise
      (fun a b => b.combined_score ≤ a.combined_score) := by
  induction l with
  | nil => simp [insertByCombined]
  | cons z zs ih =>
      rw [List.pairwise_cons] at h
      obtain ⟨hz, hzs⟩ := h
      simp only [insertByCombined]
      split
      · rename_i hgt
        rw [List.pairwise_cons]
        constructor
        · intro y hy
          rcases List.mem_cons.mp hy with hyz | hyzs
          · rw [hyz]; exact le_of_lt hgt
          · exact le_trans (hz y hyzs) (le_of_lt hgt)
        · exact List.Pairwise.cons hz hzs
      · rename_i hle
        rw [List.pairwise_cons]
        constructor
        · intro y hy
          rcases (mem_insertByCombined x y zs).mp hy with hyx | hyzs
          · rw [hyx]; exact not_lt.mp hle
          · exact hz y hyzs
        · exact ih hzs

/-- The sorting fold returns a descending-sorted list from a sorted
accumulator. -/
theorem sorted_orderFold (l : List ScoredRow) :
    ∀ acc, acc.Pairwise (fun a b => b.combined_score ≤ a.combined_score) →
      (l.foldl (fun acc x => insertByCombined x acc) acc).Pairwise
        (fun a b => b.combined_score ≤ a.combined_score) := by
  induction l with
  | nil => intro acc h; exact h
  | cons z zs ih =>
      intro acc h
      exact ih _ (sorted_insertByCombined z acc h)

/-- C8 counterexample.  Two candidates with equal combined score 0.38 —
ids 1 (vector 0.2, lexical 0.8) and 2 (vector 0.5, lexical 0.1) — come
back in candidate order [1, 2], i.e. with ASCENDING vector scores: the
`ORDER BY combined_score DESC` has no vector-score tie-break. -/
theorem hybrid_search_tie_counterexample :
    (hybridSearch [{ id := 1, vector_score := 2 / 10, text_score := some (8 / 10) },
                   { id := 2, vector_score := 5 / 10, text_score := some (1 / 10) }] 2).map
        ScoredRow.id = [1, 2] ∧
    (hybridSearch [{ id := 1, vector_score := 2 / 10, text_score := some (8 / 10) },
                   { id := 2, vector_score := 5 / 10, text_score := some (1 / 10) }] 2).map
        ScoredRow.combined_score = [38 / 100, 38 / 100] ∧
    (hybridSearch [{ id := 1, vector_score := 2 / 10, text_score := some (8 / 10) },
                   { id := 2, vector_score := 5 / 10, text_score := some (1 / 10) }] 2).map
        ScoredRow.vector_score = [2 / 10, 5 / 10] ∧
    (2 : ℚ) / 10 < 5 / 10 := by
  have hA : scoreRow { id := 1, vector_score := 2 / 10, text_score := some (8 / 10) } =
      { id := 1, vector_score := 2 / 10, text_score := 8 / 10,
        combined_score := 38 / 100 } := by
    simp only [scoreRow, Option.getD, ScoredRow.mk.injEq]
    norm_num
  have hB : scoreRow { id := 2, vector_score := 5 / 10, text_score := some (1 / 10) } =
      { id := 2, vector_score := 5 / 10, text_score := 1 / 10,
        combined_score := 38 / 100 } := by
    simp only [scoreRow, Option.getD, ScoredRow.mk.injEq]
    norm_num
  have hsearch :
      hybridSearch [{ id := 1, vector_score := 2 / 10, text_score := some (8 / 10) },
                    { id := 2, vector_score := 5 / 10, text_score := some (1 / 10) }] 2 =
      [{ id := 1, vector_score := 2 / 10, text_score := 8 / 10,
         combined_score := 38 / 100 },
       { id := 2, vector_score := 5 / 10, text_score := 1 / 10,
         combined_score := 38 / 100 }] := by
    unfold hybridSearch orderByCombinedDesc
    simp only [List.map_cons, List.map_nil, hA, hB, List.foldl_cons, List.foldl_nil]
    simp only [insertByCombined]
    rw [if_neg (by norm_num)]
    rfl
  rw [hsearch]
  refine ⟨rfl, rfl, rfl, by norm_num⟩

/-- C8 (amended).  Every returned row's combined score is
`0.7·vector + 0.3·lexical` with 0 substituted for a missing lexical match
(vector 0.8, lexical 0.5 gives exactly 0.71); at most `limit` rows come
back, ordered by combined score descending — but ties carry no secondary
order (the SQL has no vector-score tie-break; the embedding keeps candidate
order). -/
theorem hybrid_search_spec :
    (∀ cands limit r, r ∈ hybridSearch cands limit →
      r.combined_score = r.vector_score * (7 / 10) + r.text_score * (3 / 10)) ∧
    (∀ cands limit, (hybridSearch cands limit).length ≤ limit) ∧
    (∀ cands limit, (hybridSearch cands limit).Pairwise
      (fun a b => b.combined_score ≤ a.combined_score)) ∧
    (scoreRow { id := 0, vector_score := 8 / 10,
                text_score := some (5 / 10) }).combined_score = 71 / 100 ∧
    (∀ r : CandidateRow, r.text_score = none →
      (scoreRow r).combined_score = r.vector_score * (7 / 10)) := by
  refine ⟨?_, ?_, ?_, ?_, ?_⟩
  · intro cands limit r hr
    unfold hybridSearch at hr
    have hmem : r ∈ orderByCombinedDesc (cands.map scoreRow) :=
      List.mem_of_mem_take hr
    unfold orderByCombinedDesc at hmem
    rcases (mem_orderFold _ _ _).mp hmem with hacc | hmap
    · cases hacc
    · obtain ⟨cr, _, rfl⟩ := List.mem_map.mp hmap
      rfl
  · intro cands limit
    unfold hybridSearch
    exact List.length_take_le _ _
  · intro cands limit
    unfold hybridSearch orderByCombinedDesc
    exact List.Pairwise.take (sorted_orderFold _ _ List.Pairwise.nil)
  · simp only [scoreRow, Option.getD]
    norm_num
  · intro r hr
    simp only [scoreRow, hr, Option.getD]
    ring

/-- C8 witness: the scoring formula instantiated on a singleton candidate
list. -/
theorem hybrid_search_spec_witness :
    (scoreRow { id := 7, vector_score := 1 / 2, text_score := none }).combined_score =
      (scoreRow { id := 7, vector_score := 1 / 2, text_score := none }).vector_score *
        (7 / 10) +
      (scoreRow { id := 7, vector_score := 1 / 2, text_score := none }).text_score *
        (3 / 10) :=
  hybrid_search_spec.1 [{ id := 7, vector_score := 1 / 2, text_score := none }] 1
    (scoreRow { id := 7, vector_score := 1 / 2, text_score := none })
    (List.mem_singleton.mpr rfl)

/-! ## Theorems: Chunking worker -/

/-- The concrete failing iteration used by the C6 counterexample: a found,
unprocessed resource, a one-character text, and an embedding call that
raises. -/
def workerFailureExample : RedisState Unit × ResourceState :=
  chunkingWorkerIteration (J := Unit) ⟨fun _ => [], fun _ => none⟩
    { id := "j1".toList, data := (), status := "pending".toList, created_at := none }
    "x".toList (.error "boom".toList) (.ok ()) (.ok ()) ()
    { found := true, is_processed := false, course_id := some "c1".toList,
      broadcasts := [] }

/-- C6 counterexample.  When the embedding step raises, the worker loop
still marks the job `completed` — the job status is never set to `failed`
— even though the resource's processed flag stays false. -/
theorem worker_failed_status_counterexample :
    (workerFailureExample.1.jobs ("job:j1".toList)).map JobHash.status =
      some statusCompleted ∧
    (workerFailureExample.1.jobs ("job:j1".toList)).map JobHash.status ≠
      some statusFailed ∧
    workerFailureExample.2.is_processed = false := by
  decide

/-- C6 (amended).  A provider/store error during embed or index is caught:
the worker loop does not crash (the iteration is a total function of the
step outcomes), the resource's processed flag is left/rolled back to
false, and a `failed` processing status is broadcast — but the job's
status is then set to `completed`; no worker ever writes `failed` to the
job status store. -/
theorem worker_error_handling {J : Type} (rst : RedisState J)
    (job : QueuedJob J) (text : List Char)
    (embedR insertR : Except (List Char) Unit) (resultP : J)
    (res : ResourceState)
    (hfound : res.found = true)
    (hcourse : res.course_id.isSome = true)
    (hchunks : chunking_service.chunk_text text ≠ [])
    (herr : (∃ m, embedR = .error m) ∨
      (embedR = .ok () ∧ ∃ m, insertR = .error m)) :
    ((chunkingWorkerIteration rst job text embedR insertR (.ok ()) resultP
        res).1.jobs ("job:".toList ++ job.id)).map JobHash.status =
      some statusCompleted ∧
    (chunkingWorkerIteration rst job text embedR insertR (.ok ()) resultP
        res).2.is_processed = false ∧
    statusFailed ∈
      (chunkingWorkerIteration rst job text embedR insertR (.ok ()) resultP
        res).2.broadcasts := by
  have hres : processChunkingJob text embedR insertR (.ok ()) res =
      { broadcastStatus (broadcastStatus res statusProcessing) statusFailed with
        is_processed := false } := by
    unfold processChunkingJob
    rw [hfound]
    dsimp only
    rw [if_neg hchunks]
    rcases herr with ⟨m, he⟩ | ⟨hok, m, hi⟩
    · rw [he]
      simp [chunkingFailHandler]
    · rw [hok, hi]
      simp [chunkingFailHandler]
  have hstatus :
      ((chunkingWorkerIteration rst job text embedR insertR (.ok ()) resultP
        res).1.jobs ("job:".toList ++ job.id)).map JobHash.status =
      some statusCompleted := by
    unfold chunkingWorkerIteration updateJobStatus
    dsimp only
    rw [updateFn_self]
    rfl
  refine ⟨hstatus, ?_, ?_⟩
  · show (processChunkingJob text embedR insertR (.ok ()) res).is_processed = false
    rw [hres]
  · show statusFailed ∈
      (processChunkingJob text embedR insertR (.ok ()) res).broadcasts
    rw [hres]
    show statusFailed ∈
      (broadcastStatus (broadcastStatus res statusProcessing) statusFailed).broadcasts
    unfold broadcastStatus
    rw [if_pos (by rw [if_pos hcourse]; exact hcourse)]
    exact List.mem_append_right _ (List.mem_singleton.mpr rfl)

/-- C6 witness: the amended behavior evaluated on a concrete failing
embed step. -/
theorem worker_error_handling_witness :
    ((chunkingWorkerIteration (J := Unit) ⟨fun _ => [], fun _ => none⟩
        { id := "j1".toList, data := (), status := "pending".toList, created_at := none }
        "x".toList (.error "boom".toList) (.ok ()) (.ok ()) ()
        { found := true, is_processed := false, course_id := some "c1".toList,
          broadcasts := [] }).1.jobs
      ("job:".toList ++ "j1".toList)).map JobHash.status = some statusCompleted ∧
    (chunkingWorkerIteration (J := Unit) ⟨fun _ => [], fun _ => none⟩
        { id := "j1".toList, data := (), status := "pending".toList, created_at := none }
        "x".toList (.error "boom".toList) (.ok ()) (.ok ()) ()
        { found := true, is_processed := false, course_id := some "c1".toList,
          broadcasts := [] }).2.is_processed = false ∧
    statusFailed ∈
      (chunkingWorkerIteration (J := Unit) ⟨fun _ => [], fun _ => none⟩
        { id := "j1".toList, data := (), status := "pending".toList, created_at := none }
        "x".toList (.error "boom".toList) (.ok ()) (.ok ()) ()
        { found := true, is_processed := false, course_id := some "c1".toList,
          broadcasts := [] }).2.broadcasts :=
  worker_error_handling ⟨fun _ => [], fun _ => none⟩
    { id := "j1".toList, data := (), status := "pending".toList, created_at := none }
    "x".toList (.error "boom".toList) (.ok ()) ()
    { found := true, is_processed := false, course_id := some "c1".toList,
      broadcasts := [] }
    rfl rfl (by decide) (Or.inl ⟨"boom".toList, rfl⟩)

/-! ## Theorems: Connection manager -/

/-- The room `course_id` after a `disconnect`: the connection filtered out,
with the room deleted if that left it empty. -/
theorem disconnect_rooms_self (m : ConnectionManager) (ws : Nat)
    (course_id : List Char) :
    ((m.disconnect ws course_id).1).active_connections course_id =
      match m.active_connections course_id with
      | none => none
      | some conns =>
          if conns.filter (fun c => c ≠ ws) = [] then none
          else some (conns.filter (fun c => c ≠ ws)) := by
  unfold ConnectionManager.disconnect
  dsimp only
  cases h : m.active_connections course_id with
  | none => dsimp only; exact h
  | some conns =>
      dsimp only
      by_cases hemp : conns.filter (fun c => c ≠ ws) = []
      · rw [if_pos hemp, if_pos hemp]
        dsimp only
        rw [if_pos rfl]
      · rw [if_neg hemp, if_neg hemp]
        dsimp only
        rw [if_pos rfl]

/-- Rooms other than `course_id` are untouched by `disconnect`. -/
theorem disconnect_rooms_other (m : ConnectionManager) (ws : Nat)
    (course_id k : List Char) (hk : k ≠ course_id) :
    ((m.disconnect ws course_id).1).active_connections k =
      m.active_connections k := by
  unfold ConnectionManager.disconnect
  dsimp only
  cases h : m.active_connections course_id with
  | none => dsimp only
  | some conns =>
      dsimp only
      by_cases hemp : conns.filter (fun c => c ≠ ws) = []
      · rw [if_pos hemp]
        dsimp only
        rw [if_neg hk]
      · rw [if_neg hemp]
        dsimp only
        rw [if_neg hk]

/-- `disconnect` preserves the non-empty-rooms invariant. -/
theorem disconnect_roomsNonempty (m : ConnectionManager) (ws : Nat)
    (course_id : List Char) (h : RoomsNonempty m) :
    RoomsNonempty (m.disconnect ws course_id).1 := by
  intro k l hk
  by_cases hkc : k = course_id
  · subst hkc
    rw [disconnect_rooms_self] at hk
    cases hm : m.active_connections k with
    | none => rw [hm] at hk; cases hk
    | some conns =>
        rw [hm] at hk
        dsimp only at hk
        by_cases hemp : conns.filter (fun c => c ≠ ws) = []
        · rw [if_pos hemp] at hk; cases hk
        · rw [if_neg hemp] at hk
          injection hk with he
          rw [he] at hemp
          exact hemp
  · rw [disconnect_rooms_other m ws course_id k hkc] at hk
    exact h k l hk

/-- Folding `disconnect` over a list of connections preserves the
invariant. -/
theorem foldDisconnect_roomsNonempty (course_id : List Char) (ds : List Nat) :
    ∀ m, RoomsNonempty m →
      RoomsNonempty
        (ds.foldl (fun acc d => (acc.disconnect d course_id).1) m) := by
  induction ds with
  | nil => intro m h; exact h
  | cons d ds ih =>
      intro m h
      exact ih _ (disconnect_roomsNonempty m d course_id h)

/-- A connection surviving a fold of `disconnect`s was in the room before
the fold and is none of the disconnected ones. -/
theorem foldDisconnect_mem (course_id : List Char) (ds : List Nat) :
    ∀ (m : ConnectionManager) (l1 : List Nat),
      (ds.foldl (fun acc d => (acc.disconnect d course_id).1)
        m).active_connections course_id = some l1 →
      ∀ w ∈ l1, (∃ l0, m.active_connections course_id = some l0 ∧ w ∈ l0) ∧
        w ∉ ds := by
  induction ds with
  | nil =>
      intro m l1 h w hw
      exact ⟨⟨l1, h, hw⟩, List.not_mem_nil w⟩
  | cons d ds ih =>
      intro m l1 h w hw
      obtain ⟨⟨lmid, hmid, hwmid⟩, hnotin⟩ := ih _ l1 h w hw
      rw [disconnect_rooms_self] at hmid
      cases hm : m.active_connections course_id with
      | none => rw [hm] at hmid; cases hmid
      | some l0 =>
          rw [hm] at hmid
          dsimp only at hmid
          by_cases hemp : l0.filter (fun c => c ≠ d) = []
          · rw [if_pos hemp] at hmid; cases hmid
          · rw [if_neg hemp] at hmid
            injection hmid with he
            rw [← he] at hwmid
            have hw0 := List.mem_filter.mp hwmid
            refine ⟨⟨l0, rfl, hw0.1⟩, ?_⟩
            intro hcontra
            rcases List.mem_cons.mp hcontra with hwd | hwds
            · exact absurd hwd (of_decide_eq_true hw0.2)
            · exact hnotin hwds

/-- C10.  The registry keeps every present room non-empty: `disconnect`
deletes a room whose last connection left and `broadcast_to_course`
disconnects every non-excluded connection whose send raised, so after a
broadcast no failed connection remains in the room; broadcasting to an
unknown room is a no-op. -/
theorem connection_registry_invariant :
    (∀ (m : ConnectionManager) (ws : Nat) (c : List Char),
      RoomsNonempty m → RoomsNonempty (m.disconnect ws c).1) ∧
    (∀ (m : ConnectionManager) (c : List Char) (excl : Option Nat)
      (fails : Nat → Bool),
      RoomsNonempty m → RoomsNonempty (m.broadcast_to_course c excl fails)) ∧
    (∀ (m : ConnectionManager) (c : List Char) (excl : Option Nat)
      (fails : Nat → Bool) (l : List Nat) (w : Nat),
      (m.broadcast_to_course c excl fails).active_connections c = some l →
      w ∈ l → excl = some w ∨ fails w = false) ∧
    (∀ (m : ConnectionManager) (c : List Char) (excl : Option Nat)
      (fails : Nat → Bool),
      m.active_connections c = none → m.broadcast_to_course c excl fails = m) := by
  refine ⟨disconnect_roomsNonempty, ?_, ?_, ?_⟩
  · intro m c excl fails h
    unfold ConnectionManager.broadcast_to_course
    cases hm : m.active_connections c with
    | none => exact h
    | some conns =>
        dsimp only
        exact foldDisconnect_roomsNonempty c _ m h
  · intro m c excl fails l w hl hw
    unfold ConnectionManager.broadcast_to_course at hl
    cases hm : m.active_connections c with
    | none =>
        rw [hm] at hl
        dsimp only at hl
        rw [hm] at hl
        cases hl
    | some conns =>
        rw [hm] at hl
        dsimp only at hl
        obtain ⟨⟨l0, h0, hw0⟩, hnotdead⟩ := foldDisconnect_mem c _ m l hl w hw
        rw [hm] at h0
        injection h0 with he
        rw [← he] at hw0
        by_cases hex : excl = some w
        · exact Or.inl hex
        · right
          by_cases hf : fails w = true
          · exfalso
            apply hnotdead
            apply List.mem_filter.mpr
            refine ⟨hw0, ?_⟩
            simp [hex, hf]
          · simpa using hf
  · intro m c excl fails h
    unfold ConnectionManager.broadcast_to_course
    rw [h]

/-- C10 witness: in a room `[1, 2]` where connection 2's send fails, after
the broadcast the surviving connection 1 is not a failed one. -/
theorem connection_registry_invariant_witness :
    (none : Option Nat) = some 1 ∨ decide ((1 : Nat) = 2) = false :=
  connection_registry_invariant.2.2.1
    ⟨fun k => if k = "r".toList then some [1, 2] else none, fun _ => none⟩
    "r".toList none (fun w => decide (w = 2)) [1] 1 (by decide) (by decide)

end NotesOS
